import Mathlib

/-!
Verification of the semi-structured test-case parser and multi-format
exporter of `genrator-test.py`.

Text is modelled as `List Char`; every Python string primitive the program
uses (`strip`, `split`, `replace`, `startswith`, `in`, dict assignment) is
given an executable Lean counterpart with the same semantics, and the
functions `parse_test_cases`, `format_test_cases`, `save_as_txt`,
`save_as_csv`, `save_as_docx` are translated from the source.
-/

set_option maxRecDepth 40000

namespace WizGen

/-- Convert a literal to the `List Char` representation used throughout. -/
def chars (s : String) : List Char := s.data

/-- The ASCII whitespace characters removed by Python `str.strip()`
(the source only ever feeds it ASCII section labels and model output). -/
def pyWs (c : Char) : Bool :=
  c == ' ' || c == '\t' || c == '\n' || c == '\r' || c == '\x0b' || c == '\x0c'

/-- Python `s.strip()`: drop leading and trailing whitespace. -/
def pyStrip (s : List Char) : List Char :=
  ((s.dropWhile pyWs).reverse.dropWhile pyWs).reverse

/-- `pat` occurs as a contiguous substring of `s` (Python `pat in s`,
for nonempty `pat`). -/
def containsSub (s pat : List Char) : Bool :=
  if pat.isPrefixOf s then true
  else
    match s with
    | [] => false
    | _ :: t => containsSub t pat

/-- Fuel-driven worker for Python `s.replace(pat, rep)`: scan left to
right, replacing non-overlapping occurrences.  `fuel` bounds the number
of steps; `s.length` always suffices. -/
def pyReplaceF : Nat → List Char → List Char → List Char → List Char
  | 0, s, _, _ => s
  | fuel + 1, s, pat, rep =>
    if pat ≠ [] ∧ pat.isPrefixOf s then
      rep ++ pyReplaceF fuel (s.drop pat.length) pat rep
    else
      match s with
      | [] => []
      | c :: t => c :: pyReplaceF fuel t pat rep

/-- Python `s.replace(pat, rep)` for nonempty `pat`. -/
def pyReplace (s pat rep : List Char) : List Char :=
  pyReplaceF s.length s pat rep

/-- Fuel-driven worker for Python `s.split(sep)` (nonempty `sep`):
non-overlapping left-to-right separators, empty parts kept. -/
def pySplitF : Nat → List Char → List Char → List (List Char)
  | 0, s, _ => [s]
  | fuel + 1, s, sep =>
    if sep ≠ [] ∧ sep.isPrefixOf s then
      [] :: pySplitF fuel (s.drop sep.length) sep
    else
      match s with
      | [] => [[]]
      | c :: t =>
        match pySplitF fuel t sep with
        | [] => [[c]]
        | p :: ps => (c :: p) :: ps

/-- Python `s.split(sep)` for nonempty `sep`. -/
def pySplitStr (s sep : List Char) : List (List Char) :=
  pySplitF s.length s sep

/-- Python `s.split(sep, 1)` when `sep ∈ s`: the part before the first
separator character and the part after it. -/
def splitFirst (s : List Char) (sep : Char) : List Char × List Char :=
  match s with
  | [] => ([], [])
  | c :: t =>
    if c = sep then ([], t)
    else
      let p := splitFirst t sep
      (c :: p.1, p.2)

/-- A parsed test case: a Python `dict` in insertion order
(updating an existing key keeps its position, as in CPython). -/
abbrev Record := List (List Char × List Char)

/-- Python `d.get(k)` as an `Option`. -/
def dictGet (r : Record) (k : List Char) : Option (List Char) :=
  match r with
  | [] => none
  | (k2, v) :: t => if k2 = k then some v else dictGet t k

/-- Python `d[k] = v`: update in place if present, else append. -/
def dictSet (r : Record) (k v : List Char) : Record :=
  match r with
  | [] => [(k, v)]
  | (k2, v2) :: t => if k2 = k then (k2, v) :: t else (k2, v2) :: dictSet t k v

/-- The record-introducer literal `"Test Case "`. -/
def tcIntro : List Char := chars "Test Case "

/-- The dictionary key holding a record's title. -/
def titleKey : List Char := chars "Title"

/-- Parser state of `parse_test_cases`: the flushed records, the
in-progress record (`current_case`) and the active field
(`current_field`; `none` models Python `None`). -/
structure PState where
  acc : List Record
  cur : Record
  curField : Option (List Char)
deriving DecidableEq

/-- One iteration of the `for line in text.split('\n')` loop of
`parse_test_cases` (source lines 202–218). -/
def parseLine (st : PState) (rawLine : List Char) : PState :=
  let line := pyStrip rawLine
  if line = [] then st
  else if tcIntro.isPrefixOf line ∧ ':' ∈ line then
    { acc := if st.cur ≠ [] then st.acc ++ [st.cur] else st.acc
      cur := [(titleKey, pyStrip (splitFirst line ':').2)]
      curField := st.curField }
  else if ':' ∈ line then
    let p := splitFirst line ':'
    let f := pyStrip p.1
    { acc := st.acc, cur := dictSet st.cur f (pyStrip p.2), curField := some f }
  else
    match st.curField with
    | some f =>
      -- Python `elif current_field:`: the empty string is falsy.
      if f = [] then st
      else { acc := st.acc
             cur := dictSet st.cur f (((dictGet st.cur f).getD []) ++ '\n' :: line)
             curField := st.curField }
    | none => st

/-- The initial parser state. -/
def pStart : PState := ⟨[], [], none⟩

/-- The parser state after consuming a list of raw lines. -/
def pLines (ls : List (List Char)) : PState := ls.foldl parseLine pStart

/-- `parse_test_cases` (source lines 196–223): split on newlines, run the
line loop, and flush the final in-progress record. -/
def parse_test_cases (text : List Char) : List Record :=
  let st := pLines (pySplitStr text ['\n'])
  if st.cur ≠ [] then st.acc ++ [st.cur] else st.acc

/-! ## The Format Normalizer (`format_test_cases`, source lines 93–113) -/

/-- Three consecutive newlines (the collapse pattern). -/
def tripleNL : List Char := chars "\n\n\n"

/-- Two consecutive newlines (the collapse replacement). -/
def doubleNL : List Char := chars "\n\n"

/-- What the introducer is replaced by: a blank line plus itself. -/
def tcIntroRep : List Char := chars "\n\nTest Case "

/-- The six recognized section labels, in the order the source loops
over them. -/
def fmtSections : List (List Char) :=
  [chars "Test Case ID:", chars "Description:", chars "Preconditions:",
   chars "Test Steps:", chars "Expected Results:", chars "Test Data:"]

/-- The fixed banner prepended by `format_test_cases`:
`"TEST CASES\n" + "="*50 + "\n\n"`. -/
def fmtBanner : List Char := chars "TEST CASES\n" ++ List.replicate 50 '=' ++ chars "\n\n"

/-- The section loop of `format_test_cases`: each label gets a newline
inserted in front of every occurrence. -/
def fmtSectionPass (s : List Char) : List Char :=
  fmtSections.foldl (fun acc sec => pyReplace acc sec ('\n' :: sec)) s

/-- The body rewriting of `format_test_cases` before the banner:
collapse `"\n\n\n"` to `"\n\n"`, put a blank line before every
`"Test Case "`, then run the section loop. -/
def fmtBody (raw : List Char) : List Char :=
  fmtSectionPass (pyReplace (pyReplace raw tripleNL doubleNL) tcIntro tcIntroRep)

/-- `format_test_cases` (source lines 93–113).  The `try/except` is dead:
every operation in the body is a total string operation. -/
def format_test_cases (raw : List Char) : List Char :=
  fmtBanner ++ pyStrip (fmtBody raw)

/-! ## Exporters

File I/O cannot appear in a shallow embedding, so each `save_as_*`
function is modelled by its decision structure: a flag says whether the
I/O performed inside the `try` block fails (raising an exception with
message `errMsg`), and the model records what the function returns and
what, if anything, it writes to the shared error artifact `error.txt`.
Paths are represented by their file name inside the scratch directory. -/

/-- The shared error-artifact location (`error.txt` in the scratch
directory). -/
def errorFileName : List Char := chars "error.txt"

/-- What an exporter call produces: the string it returns (a path or a
plain message) and the diagnostic written to `error.txt`, if any. -/
structure SaveOutcome where
  result : List Char
  errorWrite : Option (List Char)
deriving DecidableEq

/-- `save_as_txt` (source lines 158–170): on success return
`<fileName>.txt`; on failure write `"Error saving text: ..."` to
`error.txt` and return that path. -/
def save_as_txt (text fileName : List Char) (ioFails : Bool) (errMsg : List Char) :
    SaveOutcome :=
  if ioFails then
    { result := errorFileName, errorWrite := some (chars "Error saving text: " ++ errMsg) }
  else
    { result := fileName ++ chars ".txt", errorWrite := none }

/-- `save_as_docx` (source lines 115–156): on success return
`<fileName>.docx`; on failure write `"Error generating DOCX: ..."` to
`error.txt` and return that path. -/
def save_as_docx (text fileName : List Char) (ioFails : Bool) (errMsg : List Char) :
    SaveOutcome :=
  if ioFails then
    { result := errorFileName, errorWrite := some (chars "Error generating DOCX: " ++ errMsg) }
  else
    { result := fileName ++ chars ".docx", errorWrite := none }

/-- `save_as_csv` (source lines 172–194): on success return
`<fileName>.csv`; on failure return the message
`"Error saving CSV: ..."` itself — nothing is written to `error.txt`. -/
def save_as_csv (text fileName : List Char) (ioFails : Bool) (errMsg : List Char) :
    SaveOutcome :=
  if ioFails then
    { result := chars "Error saving CSV: " ++ errMsg, errorWrite := none }
  else
    { result := fileName ++ chars ".csv", errorWrite := none }

/-! ## CSV field computation (source lines 179–192)

The source collects `fields = set(); fields.update(tc.keys())` and then
appends `[f for f in fields if f not in priority]` to the fixed priority
list.  Iterating a CPython `set` of strings yields an order that depends
on randomized string hashing, so the enumeration of the set is taken
here as a parameter `extraEnum`; every theorem below holds for every
enumeration. -/

/-- The fixed priority columns of `save_as_csv`, in source order. -/
def csvPriority : List (List Char) :=
  [chars "Title", chars "Test Case ID", chars "Description", chars "Preconditions",
   chars "Test Steps", chars "Expected Results", chars "Test Data"]

/-- The CSV header: the priority columns followed by the given
enumeration of the remaining observed field names. -/
def csvFieldNames (extraEnum : List (List Char)) : List (List Char) :=
  csvPriority ++ extraEnum.filter (fun f => ¬ f ∈ csvPriority)

/-- One cell of a data row: `csv.DictWriter` with the default
`restval=''` writes the empty string for a missing key. -/
def csvCell (r : Record) (f : List Char) : List Char :=
  (dictGet r f).getD []

/-- One data row of `save_as_csv`. -/
def csvRow (fieldNames : List (List Char)) (r : Record) : List (List Char) :=
  fieldNames.map (csvCell r)

/-! ## The Document exporter's block split (source lines 121–128)

`save_as_docx` splits the raw text on `"\n\nTest Case "`, skips a
leading block that strips to nothing, and re-prefixes every later block
with `"Test Case "`. -/

/-- The blocks the Document exporter iterates over. -/
def docxBlocks (text : List Char) : List (List Char) :=
  match pySplitStr text (chars "\n\nTest Case ") with
  | [] => []
  | p0 :: rest =>
    (if pyStrip p0 = [] then [] else [p0]) ++ rest.map (fun tc => chars "Test Case " ++ tc)

/-! ## Lemmas about the string primitives -/

theorem isPrefixOf_nil_left (l : List Char) : ([] : List Char).isPrefixOf l = true := by
  cases l <;> rfl

theorem isPrefixOf_cons_nil (a : Char) (as : List Char) :
    (a :: as).isPrefixOf ([] : List Char) = false := rfl

theorem isPrefixOf_cons_cons (a b : Char) (as bs : List Char) :
    (a :: as).isPrefixOf (b :: bs) = (a == b && as.isPrefixOf bs) := rfl

theorem mem_of_isPrefixOf {pat s : List Char} (h : pat.isPrefixOf s = true) {c : Char}
    (hc : c ∈ pat) : c ∈ s := by
  induction pat generalizing s with
  | nil => cases hc
  | cons p ps ih =>
    cases s with
    | nil => simp [isPrefixOf_cons_nil] at h
    | cons q t =>
      rw [isPrefixOf_cons_cons, Bool.and_eq_true, beq_iff_eq] at h
      rcases List.mem_cons.mp hc with hp | hp
      · exact hp ▸ h.1 ▸ List.mem_cons_self q t
      · exact List.mem_cons_of_mem q (ih h.2 hp)

theorem length_le_of_isPrefixOf {pat s : List Char} (h : pat.isPrefixOf s = true) :
    pat.length ≤ s.length := by
  induction pat generalizing s with
  | nil => simp
  | cons p ps ih =>
    cases s with
    | nil => simp [isPrefixOf_cons_nil] at h
    | cons q t =>
      rw [isPrefixOf_cons_cons, Bool.and_eq_true] at h
      simpa using ih h.2

theorem containsSub_nil (pat : List Char) :
    containsSub [] pat = pat.isPrefixOf [] := by
  rw [containsSub]
  cases h : pat.isPrefixOf [] <;> simp [h]

theorem containsSub_cons (c : Char) (t pat : List Char) :
    containsSub (c :: t) pat =
      (pat.isPrefixOf (c :: t) || containsSub t pat) := by
  rw [containsSub]
  cases h : pat.isPrefixOf (c :: t) <;> simp [h]

theorem containsSub_false_of_mem {pat s : List Char} {c : Char} (hc : c ∈ pat)
    (hs : ¬ c ∈ s) : containsSub s pat = false := by
  induction s with
  | nil =>
    rw [containsSub_nil]
    cases pat with
    | nil => cases hc
    | cons p ps => exact isPrefixOf_cons_nil p ps
  | cons a t ih =>
    rw [containsSub_cons, Bool.or_eq_false_iff]
    constructor
    · cases hpre : pat.isPrefixOf (a :: t)
      · rfl
      · exact absurd (mem_of_isPrefixOf hpre hc) hs
    · exact ih (fun hmem => hs (List.mem_cons_of_mem a hmem))

theorem pyReplaceF_nil (fuel : Nat) (pat rep : List Char) :
    pyReplaceF fuel [] pat rep = [] := by
  cases fuel with
  | zero => rfl
  | succ f =>
    rw [pyReplaceF]
    cases pat with
    | nil => simp
    | cons p ps => simp [isPrefixOf_cons_nil]

theorem pyReplaceF_fuel (f1 : Nat) : ∀ (f2 : Nat) (s pat rep : List Char),
    s.length ≤ f1 → s.length ≤ f2 →
    pyReplaceF f1 s pat rep = pyReplaceF f2 s pat rep := by
  induction f1 with
  | zero =>
    intro f2 s pat rep h1 _
    have hs : s = [] := List.length_eq_zero.mp (Nat.le_zero.mp h1)
    subst hs
    rw [pyReplaceF_nil, pyReplaceF_nil]
  | succ f ih =>
    intro f2 s pat rep h1 h2
    cases s with
    | nil => rw [pyReplaceF_nil, pyReplaceF_nil]
    | cons c t =>
      cases f2 with
      | zero => simp at h2
      | succ f2 =>
        rw [pyReplaceF, pyReplaceF]
        by_cases hcond : pat ≠ [] ∧ pat.isPrefixOf (c :: t)
        · simp only [if_pos hcond]
          have hplen : 1 ≤ pat.length := by
            cases pat with
            | nil => exact absurd rfl hcond.1
            | cons _ _ => simp
          have hlen : ((c :: t).drop pat.length).length ≤ f := by
            rw [List.length_drop, List.length_cons]
            simp only [List.length_cons] at h1
            omega
          have hlen2 : ((c :: t).drop pat.length).length ≤ f2 := by
            rw [List.length_drop, List.length_cons]
            simp only [List.length_cons] at h2
            omega
          rw [ih f2 _ pat rep hlen hlen2]
        · simp only [if_neg hcond]
          simp only [List.length_cons] at h1 h2
          rw [ih f2 t pat rep (by omega) (by omega)]

theorem pyReplace_nil (pat rep : List Char) : pyReplace [] pat rep = [] := rfl

theorem pyReplace_cons_no {c : Char} {t pat : List Char} (rep : List Char)
    (h : pat.isPrefixOf (c :: t) = false) :
    pyReplace (c :: t) pat rep = c :: pyReplace t pat rep := by
  show pyReplaceF (t.length + 1) (c :: t) pat rep = _
  rw [pyReplaceF]
  simp [h, pyReplace]

theorem pyReplace_match {s pat : List Char} (rep : List Char) (hne : pat ≠ [])
    (hp : pat.isPrefixOf s = true) :
    pyReplace s pat rep = rep ++ pyReplace (s.drop pat.length) pat rep := by
  cases s with
  | nil =>
    cases pat with
    | nil => exact absurd rfl hne
    | cons p ps => simp [isPrefixOf_cons_nil] at hp
  | cons c t =>
    show pyReplaceF (t.length + 1) (c :: t) pat rep = _
    rw [pyReplaceF]
    simp only [if_pos (And.intro hne hp)]
    congr 1
    have hplen : 1 ≤ pat.length := by
      cases pat with
      | nil => exact absurd rfl hne
      | cons _ _ => simp
    exact pyReplaceF_fuel _ _ _ _ _
      (by rw [List.length_drop, List.length_cons]; omega) (le_refl _)

theorem pyReplace_no_occur {s pat : List Char} (rep : List Char)
    (h : containsSub s pat = false) : pyReplace s pat rep = s := by
  induction s with
  | nil => rfl
  | cons c t ih =>
    rw [containsSub_cons, Bool.or_eq_false_iff] at h
    rw [pyReplace_cons_no rep h.1, ih h.2]

theorem dropWhile_pyWs_idem (l : List Char) :
    (l.dropWhile pyWs).dropWhile pyWs = l.dropWhile pyWs := by
  induction l with
  | nil => rfl
  | cons c t ih =>
    by_cases hc : pyWs c = true
    · simp [List.dropWhile_cons, hc, ih]
    · simp [List.dropWhile_cons, hc]

theorem pyStrip_eq_self {s : List Char} (h1 : s.dropWhile pyWs = s)
    (h2 : s.reverse.dropWhile pyWs = s.reverse) : pyStrip s = s := by
  unfold pyStrip
  rw [h1, h2, List.reverse_reverse]

theorem pyStrip_reverse_dropWhile (t : List Char) :
    (pyStrip t).reverse.dropWhile pyWs = (pyStrip t).reverse := by
  unfold pyStrip
  rw [List.reverse_reverse]
  exact dropWhile_pyWs_idem _

theorem length_dropWhile_pyWs_le (l : List Char) :
    (l.dropWhile pyWs).length ≤ l.length := by
  induction l with
  | nil => simp
  | cons c t ih =>
    by_cases h : pyWs c = true
    · rw [List.dropWhile_cons, if_pos h]
      simp only [List.length_cons]
      omega
    · simp [List.dropWhile_cons, h]

theorem reverse_head_not_ws {s : List Char} (hne : s ≠ [])
    (h : s.reverse.dropWhile pyWs = s.reverse) :
    ∃ c cs, s.reverse = c :: cs ∧ pyWs c = false := by
  cases hrev : s.reverse with
  | nil => exact absurd (by simpa using congrArg List.reverse hrev) hne
  | cons c cs =>
    refine ⟨c, cs, rfl, ?_⟩
    by_contra hc
    have hc2 : pyWs c = true := by
      cases hcv : pyWs c
      · exact absurd hcv hc
      · rfl
    rw [hrev, List.dropWhile_cons, hc2, if_pos rfl] at h
    have hlen := congrArg List.length h
    have hle := length_dropWhile_pyWs_le cs
    simp only [List.length_cons] at hlen
    omega

/-! ## Lemmas about the dictionary model -/

theorem dictGet_dictSet_self (r : Record) (k v : List Char) :
    dictGet (dictSet r k v) k = some v := by
  induction r with
  | nil => simp [dictSet, dictGet]
  | cons p t ih =>
    by_cases h : p.1 = k
    · simp [dictSet, dictGet, h]
    · simp [dictSet, dictGet, h, ih]

theorem dictGet_dictSet_ne (r : Record) {k k2 : List Char} (v : List Char) (h : k2 ≠ k) :
    dictGet (dictSet r k v) k2 = dictGet r k2 := by
  induction r with
  | nil => simp [dictSet, dictGet, Ne.symm h]
  | cons p t ih =>
    by_cases hp : p.1 = k
    · simp only [dictSet, if_pos hp, dictGet]
      rw [if_neg (by rw [hp]; exact fun he => h he.symm), if_neg (by rw [hp]; exact fun he => h he.symm)]
    · simp only [dictSet, if_neg hp, dictGet]
      by_cases hp2 : p.1 = k2
      · rw [if_pos hp2, if_pos hp2]
      · rw [if_neg hp2, if_neg hp2, ih]

theorem dictGet_dictSet_pres {r : Record} {q k : List Char} (v : List Char)
    (h : dictGet r q ≠ none) : dictGet (dictSet r k v) q ≠ none := by
  by_cases hk : q = k
  · subst hk
    rw [dictGet_dictSet_self]
    exact fun hc => Option.noConfusion hc
  · rw [dictGet_dictSet_ne r v hk]
    exact h

/-! ## Branch equations for `parseLine` -/

theorem parseLine_blank (st : PState) {ln : List Char} (h : pyStrip ln = []) :
    parseLine st ln = st := by
  unfold parseLine
  simp [h]

theorem parseLine_intro (st : PState) {ln : List Char}
    (h2 : tcIntro.isPrefixOf (pyStrip ln) = true) (h3 : ':' ∈ pyStrip ln) :
    parseLine st ln =
      { acc := if st.cur ≠ [] then st.acc ++ [st.cur] else st.acc
        cur := [(titleKey, pyStrip (splitFirst (pyStrip ln) ':').2)]
        curField := st.curField } := by
  have h1 : pyStrip ln ≠ [] := by
    intro hc
    rw [hc] at h2
    exact Bool.noConfusion h2
  unfold parseLine
  simp [h1, h2, h3]

theorem parseLine_field (st : PState) {ln : List Char}
    (h1 : pyStrip ln ≠ []) (h2 : tcIntro.isPrefixOf (pyStrip ln) = false)
    (h3 : ':' ∈ pyStrip ln) :
    parseLine st ln =
      { acc := st.acc
        cur := dictSet st.cur (pyStrip (splitFirst (pyStrip ln) ':').1)
                 (pyStrip (splitFirst (pyStrip ln) ':').2)
        curField := some (pyStrip (splitFirst (pyStrip ln) ':').1) } := by
  unfold parseLine
  simp [h1, h2, h3]

theorem parseLine_cont (st : PState) {ln f : List Char}
    (h1 : pyStrip ln ≠ []) (h3 : ¬ ':' ∈ pyStrip ln)
    (hf : st.curField = some f) (hfne : f ≠ []) :
    parseLine st ln =
      { acc := st.acc
        cur := dictSet st.cur f (((dictGet st.cur f).getD []) ++ '\n' :: pyStrip ln)
        curField := st.curField } := by
  unfold parseLine
  simp [h1, h3, hf, hfne]

theorem parseLine_nofield (st : PState) {ln : List Char}
    (h1 : pyStrip ln ≠ []) (h3 : ¬ ':' ∈ pyStrip ln)
    (hf : st.curField = none ∨ st.curField = some []) :
    parseLine st ln = st := by
  unfold parseLine
  rcases hf with hf | hf <;> simp [h1, h3, hf]

/-! ## The title invariant of the parser (claim C8) -/

/-- Invariant of the parsing loop: every flushed record except possibly
the very first carries the `Title` key, and once anything has been
flushed the in-progress record carries it too. -/
def titledInv (st : PState) : Prop :=
  (∀ r ∈ st.acc.tail, dictGet r titleKey ≠ none) ∧
  (st.acc ≠ [] → dictGet st.cur titleKey ≠ none)

theorem titledInv_start : titledInv pStart := by
  constructor
  · intro r hr
    simp [pStart] at hr
  · intro h
    exact absurd rfl h

theorem titledInv_flush {st : PState} (hinv : titledInv st) (hcur : st.cur ≠ []) :
    ∀ r ∈ (st.acc ++ [st.cur]).tail, dictGet r titleKey ≠ none := by
  intro r hr
  cases hacc : st.acc with
  | nil =>
    rw [hacc] at hr
    simp at hr
  | cons a as =>
    rw [hacc] at hr
    simp only [List.cons_append, List.tail_cons] at hr
    rcases List.mem_append.mp hr with hmem | hmem
    · exact hinv.1 r (by rw [hacc]; exact hmem)
    · have : r = st.cur := by simpa using hmem
      rw [this]
      exact hinv.2 (by rw [hacc]; simp)

theorem titledInv_step (st : PState) (ln : List Char) (hinv : titledInv st) :
    titledInv (parseLine st ln) := by
  by_cases hb : pyStrip ln = []
  · rw [parseLine_blank st hb]; exact hinv
  by_cases hintro : tcIntro.isPrefixOf (pyStrip ln) = true ∧ ':' ∈ pyStrip ln
  · rw [parseLine_intro st hintro.1 hintro.2]
    constructor
    · intro r hr
      simp only at hr
      by_cases hcur : st.cur ≠ []
      · rw [if_pos hcur] at hr
        exact titledInv_flush hinv hcur r hr
      · rw [if_neg hcur] at hr
        exact hinv.1 r hr
    · intro _
      simp [dictGet, titleKey]
  by_cases hcolon : ':' ∈ pyStrip ln
  · have hpre : tcIntro.isPrefixOf (pyStrip ln) = false := by
      cases hv : tcIntro.isPrefixOf (pyStrip ln)
      · rfl
      · exact absurd ⟨hv, hcolon⟩ hintro
    rw [parseLine_field st hb hpre hcolon]
    exact ⟨hinv.1, fun h => dictGet_dictSet_pres _ (hinv.2 h)⟩
  cases hcf : st.curField with
  | none => rw [parseLine_nofield st hb hcolon (Or.inl hcf)]; exact hinv
  | some f =>
    by_cases hfe : f = []
    · rw [parseLine_nofield st hb hcolon (Or.inr (hfe ▸ hcf))]; exact hinv
    · rw [parseLine_cont st hb hcolon hcf hfe]
      exact ⟨hinv.1, fun h => dictGet_dictSet_pres _ (hinv.2 h)⟩

theorem titledInv_fold (ls : List (List Char)) :
    ∀ st : PState, titledInv st → titledInv (ls.foldl parseLine st) := by
  induction ls with
  | nil => intro st h; exact h
  | cons ln rest ih =>
    intro st h
    exact ih (parseLine st ln) (titledInv_step st ln h)

/-! ## Lemmas about the Format Normalizer -/

theorem tripleNL_eq : tripleNL = ['\n', '\n', '\n'] := rfl

theorem doubleNL_eq : doubleNL = ['\n', '\n'] := rfl

theorem sectionFold_no_occur (secs : List (List Char)) (s : List Char)
    (h : ∀ sec ∈ secs, containsSub s sec = false) :
    secs.foldl (fun acc sec => pyReplace acc sec ('\n' :: sec)) s = s := by
  induction secs with
  | nil => rfl
  | cons a t ih =>
    simp only [List.foldl_cons]
    rw [pyReplace_no_occur _ (h a (List.mem_cons_self a t))]
    exact ih (fun sec hs => h sec (List.mem_cons_of_mem a hs))

theorem fmtSectionPass_no_occur {s : List Char}
    (h : ∀ sec ∈ fmtSections, containsSub s sec = false) : fmtSectionPass s = s :=
  sectionFold_no_occur fmtSections s h

/-- The single left-to-right pass of `replace("\n\n\n", "\n\n")` on a run
of `n` newlines followed by a non-newline character removes one newline
per three: `n` newlines become `n - n / 3`. -/
theorem runCollapse : ∀ n : Nat,
    pyReplace (List.replicate n '\n' ++ ['b']) tripleNL doubleNL =
      List.replicate (n - n / 3) '\n' ++ ['b'] := by
  intro n
  induction n using Nat.strong_induction_on with
  | _ n ih =>
    rcases n with _ | n1
    · decide
    rcases n1 with _ | n2
    · decide
    rcases n2 with _ | m
    · decide
    have hrep : List.replicate (m + 3) '\n' = '\n' :: '\n' :: '\n' :: List.replicate m '\n' := by
      simp [List.replicate_succ]
    rw [hrep]
    simp only [List.cons_append]
    have hpre : tripleNL.isPrefixOf
        ('\n' :: '\n' :: '\n' :: (List.replicate m '\n' ++ ['b'])) = true := by
      rw [tripleNL_eq, isPrefixOf_cons_cons, isPrefixOf_cons_cons, isPrefixOf_cons_cons,
        isPrefixOf_nil_left]
      simp
    rw [pyReplace_match doubleNL (by decide) hpre]
    have hdrop : ('\n' :: '\n' :: '\n' :: (List.replicate m '\n' ++ ['b'])).drop
        tripleNL.length = List.replicate m '\n' ++ ['b'] := rfl
    rw [hdrop, ih m (by omega)]
    have harith : (m + 3) - (m + 3) / 3 = (m - m / 3) + 1 + 1 := by omega
    rw [harith, List.replicate_succ, List.replicate_succ]
    rw [doubleNL_eq]
    simp

theorem not_mem_runShape {c : Char} (h1 : c ≠ 'a') (h2 : c ≠ '\n') (h3 : c ≠ 'b') (k : Nat) :
    ¬ c ∈ ('a' :: (List.replicate k '\n' ++ ['b'])) := by
  intro hc
  rcases List.mem_cons.mp hc with h | h
  · exact h1 h
  rcases List.mem_append.mp h with h | h
  · exact h2 (List.eq_of_mem_replicate h)
  · exact h3 (by simpa using h)

theorem pyStrip_runShape (k : Nat) :
    pyStrip ('a' :: (List.replicate k '\n' ++ ['b'])) =
      'a' :: (List.replicate k '\n' ++ ['b']) := by
  apply pyStrip_eq_self
  · rw [List.dropWhile_cons, if_neg (by decide)]
  · have hrev : ('a' :: (List.replicate k '\n' ++ ['b'])).reverse =
        'b' :: ((List.replicate k '\n').reverse ++ ['a']) := by
      simp
    rw [hrev, List.dropWhile_cons, if_neg (by decide)]

/-! ## Claim C3 -/

/-- C3, counterexample: the claim says every run of three or more
newlines is collapsed to exactly two, and that a run of five or more
becomes exactly two.  On the input `"a\n\n\n\n\nb"` (a run of five
newlines) `format_test_cases` leaves a run of four newlines, and the
output still contains three consecutive newlines. -/
theorem C3_counterexample :
    format_test_cases (chars "a\n\n\n\n\nb") = fmtBanner ++ chars "a\n\n\n\nb" ∧
    containsSub (format_test_cases (chars "a\n\n\n\n\nb")) tripleNL = true := by
  constructor
  · decide
  · decide

/-- C3, amended: `format_test_cases` performs one left-to-right
non-overlapping replacement of `"\n\n\n"` by `"\n\n"`, so a run of `n`
newlines (between non-whitespace, non-special text) becomes
`n - n / 3` newlines — exactly two only when `n = 3`. -/
theorem C3_amended (n : Nat) :
    format_test_cases ('a' :: (List.replicate n '\n' ++ ['b'])) =
      fmtBanner ++ 'a' :: (List.replicate (n - n / 3) '\n' ++ ['b']) := by
  have hpre : tripleNL.isPrefixOf ('a' :: (List.replicate n '\n' ++ ['b'])) = false := by
    rw [tripleNL_eq, isPrefixOf_cons_cons,
      show (('\n' : Char) == 'a') = false from by decide, Bool.false_and]
  have step1 : pyReplace ('a' :: (List.replicate n '\n' ++ ['b'])) tripleNL doubleNL =
      'a' :: (List.replicate (n - n / 3) '\n' ++ ['b']) := by
    rw [pyReplace_cons_no doubleNL hpre, runCollapse n]
  have hT : containsSub ('a' :: (List.replicate (n - n / 3) '\n' ++ ['b'])) tcIntro = false :=
    containsSub_false_of_mem (c := 'T') (by decide)
      (not_mem_runShape (by decide) (by decide) (by decide) _)
  have hsec : ∀ sec ∈ fmtSections,
      containsSub ('a' :: (List.replicate (n - n / 3) '\n' ++ ['b'])) sec = false := by
    intro sec hs
    have hcolon : ':' ∈ sec := by
      simp only [fmtSections, List.mem_cons, List.not_mem_nil, or_false] at hs
      rcases hs with rfl | rfl | rfl | rfl | rfl | rfl <;> decide
    exact containsSub_false_of_mem hcolon
      (not_mem_runShape (by decide) (by decide) (by decide) _)
  show fmtBanner ++ pyStrip (fmtSectionPass (pyReplace (pyReplace _ tripleNL doubleNL)
    tcIntro tcIntroRep)) = _
  rw [step1, pyReplace_no_occur tcIntroRep hT, fmtSectionPass_no_occur hsec, pyStrip_runShape]

/-! ## Claim C4 -/

/-- C4, counterexample: the claim says a second application of
`format_test_cases` only prepends one more banner and leaves the body
unchanged.  On `"a\nTest Case 1: B"` the first application leaves the
body `"a\n\n\nTest Case 1: B"`, and the second application both
re-collapses the newline run and inserts another blank line before
`"Test Case "`, so the result is not banner-plus-previous-output. -/
theorem C4_counterexample :
    format_test_cases (format_test_cases (chars "a\nTest Case 1: B")) ≠
      fmtBanner ++ format_test_cases (chars "a\nTest Case 1: B") := by
  decide

/-- C4, amended: applying `format_test_cases` twice equals prepending
one extra banner to the first output, provided the first output has a
nonempty body and contains no `"\n\n\n"`, no `"Test Case "`, and no
recognized section label; when the first output does contain one of
those trigger substrings its body is rewritten again. -/
theorem C4_amended (x : List Char) (hbody : pyStrip (fmtBody x) ≠ [])
    (htriple : containsSub (format_test_cases x) tripleNL = false)
    (hintro2 : containsSub (format_test_cases x) tcIntro = false)
    (hsec : ∀ sec ∈ fmtSections, containsSub (format_test_cases x) sec = false) :
    format_test_cases (format_test_cases x) = fmtBanner ++ format_test_cases x := by
  have hb : fmtBody (format_test_cases x) = format_test_cases x := by
    unfold fmtBody
    rw [pyReplace_no_occur doubleNL htriple, pyReplace_no_occur tcIntroRep hintro2,
      fmtSectionPass_no_occur hsec]
  have hsdef : format_test_cases x = fmtBanner ++ pyStrip (fmtBody x) := rfl
  have hstrip : pyStrip (format_test_cases x) = format_test_cases x := by
    apply pyStrip_eq_self
    · rw [hsdef]
      have hTB : fmtBanner ++ pyStrip (fmtBody x) =
          'T' :: (chars "EST CASES\n" ++ (List.replicate 50 '=' ++
            (chars "\n\n" ++ pyStrip (fmtBody x)))) := by
        rw [show fmtBanner = 'T' :: (chars "EST CASES\n" ++ List.replicate 50 '=' ++
          chars "\n\n") from by decide]
        simp
      rw [hTB, List.dropWhile_cons, if_neg (by decide)]
    · obtain ⟨c, cs, hrev, hwc⟩ :=
        reverse_head_not_ws hbody (pyStrip_reverse_dropWhile (fmtBody x))
      rw [hsdef, List.reverse_append, hrev]
      simp only [List.cons_append]
      rw [List.dropWhile_cons, if_neg (by simp [hwc])]
  calc format_test_cases (format_test_cases x)
      = fmtBanner ++ pyStrip (fmtBody (format_test_cases x)) := rfl
    _ = fmtBanner ++ pyStrip (format_test_cases x) := by rw [hb]
    _ = fmtBanner ++ format_test_cases x := by rw [hstrip]

/-- C4, witness: the amended statement applied to the concrete input
`"hello"`, whose formatted output is trigger-free. -/
theorem C4_witness :
    format_test_cases (format_test_cases (chars "hello")) =
      fmtBanner ++ format_test_cases (chars "hello") :=
  C4_amended (chars "hello") (by decide) (by decide) (by decide) (by decide)

/-! ## Claim C1 -/

/-- The spec's canonical example input. -/
def c1Input : List Char :=
  chars "Test Case 1: Login\nTest Case ID: TC-001\nDescription: checks login\nTest Steps:\n1. go to page\n2. submit\nExpected Results: succeeds\n"

/-- C1: the claim says this input parses to one record titled `Login`
with a `Test Case ID` field.  The code instead returns two records:
the line `Test Case ID: TC-001` itself satisfies
`startswith('Test Case ') and ':' in line`, so it starts a second
record titled `TC-001`, and no `Test Case ID` field is ever created. -/
theorem C1_code_behavior :
    parse_test_cases c1Input =
      [[(chars "Title", chars "Login")],
       [(chars "Title", chars "TC-001"),
        (chars "Description", chars "checks login"),
        (chars "Test Steps", chars "\n1. go to page\n2. submit"),
        (chars "Expected Results", chars "succeeds")]] ∧
    (parse_test_cases c1Input).length ≠ 1 := by
  constructor
  · decide
  · decide

/-! ## Claim C2 -/

/-- C2, counterexample: the claim says every exporter, on an I/O
failure, writes a diagnostic to `error.txt` and returns that path.
The CSV exporter's `except` branch instead returns the message
`"Error saving CSV: ..."` as its result and writes nothing. -/
theorem C2_counterexample :
    (save_as_csv (chars "x") (chars "test_cases") true (chars "boom")).result ≠
      errorFileName ∧
    (save_as_csv (chars "x") (chars "test_cases") true (chars "boom")).errorWrite = none := by
  constructor
  · decide
  · rfl

/-- C2, amended: on failure the text and document exporters write their
diagnostic to `error.txt` and return that path, while the CSV exporter
returns the diagnostic string itself and writes no error artifact;
in the model none of the three propagates the exception. -/
theorem C2_amended (text fileName errMsg : List Char) :
    save_as_txt text fileName true errMsg =
      { result := errorFileName,
        errorWrite := some (chars "Error saving text: " ++ errMsg) } ∧
    save_as_docx text fileName true errMsg =
      { result := errorFileName,
        errorWrite := some (chars "Error generating DOCX: " ++ errMsg) } ∧
    save_as_csv text fileName true errMsg =
      { result := chars "Error saving CSV: " ++ errMsg, errorWrite := none } :=
  ⟨rfl, rfl, rfl⟩

/-! ## Claim C6 -/

/-- C6: for every input text and every enumeration of the extra field
names, the CSV header starts with the seven fixed priority columns in
order, and a parsed record that lacks one of those seven fields gets an
empty cell in that column of its row. -/
theorem C6_csv_columns (text : List Char) (extraEnum : List (List Char)) :
    (csvFieldNames extraEnum).take 7 = csvPriority ∧
    ∀ r ∈ parse_test_cases text, ∀ i, (h : i < csvPriority.length) →
      dictGet r (csvPriority.get ⟨i, h⟩) = none →
      (csvRow (csvFieldNames extraEnum) r).get? i = some [] := by
  constructor
  · have hlen : csvPriority.length = 7 := rfl
    rw [csvFieldNames, ← hlen, List.take_left]
  · intro r _ i h hmiss
    unfold csvRow csvFieldNames
    rw [List.get?_map, List.get?_append (by simpa using h), List.get?_eq_get h]
    simp only [List.get_eq_getElem] at hmiss
    simp [csvCell, hmiss]

/-- The record used in the C6 witness; it has no `Preconditions`. -/
def c6Rec : Record := [(chars "Title", chars "A"), (chars "Description", chars "d")]

/-- C6, witness: the statement applied to a concrete input whose single
record lacks `Preconditions` (priority column 3). -/
theorem C6_witness :
    (csvFieldNames []).take 7 = csvPriority ∧
    (csvRow (csvFieldNames []) c6Rec).get? 3 = some [] := by
  refine ⟨(C6_csv_columns (chars "Test Case 1: A\nDescription: d") []).1, ?_⟩
  exact (C6_csv_columns (chars "Test Case 1: A\nDescription: d") []).2 c6Rec
    (by decide) 3 (by decide) (by decide)

/-! ## Claim C7 -/

/-- C7: the claim says the Document exporter's raw split on
`"\n\nTest Case "` yields the same record boundaries as
`parse_test_cases` for every input.  On an input whose two introducer
lines are separated by a single newline the split yields one block but
the parser yields two records. -/
theorem C7_code_behavior :
    (docxBlocks (chars "Test Case 1: A\nTest Case 2: B")).length = 1 ∧
    (parse_test_cases (chars "Test Case 1: A\nTest Case 2: B")).length = 2 := by
  constructor
  · decide
  · decide

/-! ## Claim C8 -/

/-- C8, counterexample: the claim says every parsed record carries the
`Title` key.  Field lines before any record-introducer accumulate into
a first record that has no `Title`. -/
theorem C8_counterexample :
    parse_test_cases (chars "Foo: bar") = [[(chars "Foo", chars "bar")]] ∧
    dictGet [(chars "Foo", chars "bar")] titleKey = none := by
  constructor
  · decide
  · rfl

/-- C8, amended: every record in the parse result except possibly the
first carries the `Title` key; only a leading record accumulated before
the first introducer line can lack it. -/
theorem C8_amended (text : List Char) :
    ∀ r ∈ (parse_test_cases text).tail, dictGet r titleKey ≠ none := by
  intro r hr
  have hinv : titledInv (pLines (pySplitStr text ['\n'])) :=
    titledInv_fold _ pStart titledInv_start
  simp only [parse_test_cases] at hr
  by_cases hcur : (pLines (pySplitStr text ['\n'])).cur ≠ []
  · rw [if_pos hcur] at hr
    exact titledInv_flush hinv hcur r hr
  · rw [if_neg hcur] at hr
    exact hinv.1 r hr

/-- C8, witness: the amended statement applied to a two-record input;
the second record has a title. -/
theorem C8_witness : dictGet [(titleKey, chars "B")] titleKey ≠ none :=
  C8_amended (chars "Test Case 1: A\nTest Case 2: B") [(titleKey, chars "B")] (by decide)

/-! ## Claim C9 -/

/-- C9: `parse_test_cases` is total — the embedding is a total function
mirroring the source's total string and dict operations — and the empty
input yields the empty record sequence. -/
theorem C9_parse_total_empty :
    (∀ text : List Char, ∃ rs : List Record, parse_test_cases text = rs) ∧
    parse_test_cases (chars "") = [] :=
  ⟨fun text => ⟨parse_test_cases text, rfl⟩, by decide⟩

/-! ## Claim C10 -/

/-- The last record of a parse result (used to state C10 without an
existential). -/
def lastRecord (rs : List Record) : Record := rs.getLast?.getD []

/-- C10, counterexample: the claim says the new record acquires field
`F` with value newline-plus-line for ANY labeled field `F` left active.
When the active field is literally `Title` (set by a `Title: X` line),
the introducer already filled `Title`, so the continuation appends to
the introducer's title instead of producing a newline-prefixed value. -/
theorem C10_counterexample :
    parse_test_cases (chars "Test Case 1: A\nTitle: X\nTest Case 2: B\nfollow") =
      [[(titleKey, chars "X")], [(titleKey, chars "B\nfollow")]] ∧
    dictGet [(titleKey, chars "B\nfollow")] titleKey ≠ some ('\n' :: chars "follow") := by
  constructor
  · decide
  · decide

/-- C10, amended: the active-field marker survives a record-introducer
line: if after some prefix of lines the active field is a nonempty `F`
other than `Title`, and the next two lines are an introducer line and a
line with no `':'`, then the final parsed record maps `F` to a newline
followed by that line's stripped content (so the line is not dropped). -/
theorem C10_amended (text : List Char) (pls : List (List Char)) (iLine cLine F : List Char)
    (hsplit : pySplitStr text ['\n'] = pls ++ [iLine, cLine])
    (hF : (pLines pls).curField = some F)
    (hFne : F ≠ []) (hFT : F ≠ titleKey)
    (hi2 : tcIntro.isPrefixOf (pyStrip iLine) = true) (hi3 : ':' ∈ pyStrip iLine)
    (hcne : pyStrip cLine ≠ []) (hc : ¬ ':' ∈ pyStrip cLine) :
    parse_test_cases text ≠ [] ∧
    dictGet (lastRecord (parse_test_cases text)) F = some ('\n' :: pyStrip cLine) := by
  have hfold : pLines (pySplitStr text ['\n']) =
      parseLine (parseLine (pLines pls) iLine) cLine := by
    rw [hsplit]
    unfold pLines
    rw [List.foldl_append]
    rfl
  have hstep1 := parseLine_intro (pLines pls) hi2 hi3
  have hgetT : dictGet [(titleKey, pyStrip (splitFirst (pyStrip iLine) ':').2)] F = none := by
    simp [dictGet, Ne.symm hFT]
  have hsetT : dictSet [(titleKey, pyStrip (splitFirst (pyStrip iLine) ':').2)] F
      ('\n' :: pyStrip cLine) =
      [(titleKey, pyStrip (splitFirst (pyStrip iLine) ':').2), (F, '\n' :: pyStrip cLine)] := by
    simp [dictSet, Ne.symm hFT]
  have key : parseLine (parseLine (pLines pls) iLine) cLine =
      { acc := if (pLines pls).cur ≠ [] then (pLines pls).acc ++ [(pLines pls).cur]
               else (pLines pls).acc
        cur := [(titleKey, pyStrip (splitFirst (pyStrip iLine) ':').2),
                (F, '\n' :: pyStrip cLine)]
        curField := some F } := by
    rw [hstep1, parseLine_cont _ hcne hc (by simpa using hF) hFne]
    simp only [hgetT, Option.getD_none, List.nil_append, hsetT]
    simpa using hF
  simp only [parse_test_cases, hfold, key]
  rw [if_pos (by simp)]
  constructor
  · simp
  · unfold lastRecord
    rw [List.getLast?_concat]
    simp [dictGet, Ne.symm hFT]

/-- The input of the C10 witness. -/
def c10WText : List Char := chars "Test Case 1: A\nDescription: d\nTest Case 2: B\nfollow"

/-- C10, witness: the amended statement applied to a concrete input in
which `Description` is the active field across the second introducer. -/
theorem C10_witness :
    parse_test_cases c10WText ≠ [] ∧
    dictGet (lastRecord (parse_test_cases c10WText)) (chars "Description") =
      some ('\n' :: chars "follow") :=
  C10_amended c10WText [chars "Test Case 1: A", chars "Description: d"]
    (chars "Test Case 2: B") (chars "follow") (chars "Description")
    (by decide) (by decide) (by decide) (by decide) (by decide) (by decide)
    (by decide) (by decide)

end WizGen
